import Mathlib

/-!
Shallow embedding of the server-side simulation core of the `gam-`
repository (a two-team territory-painting shooter).  All numeric state is
modelled over `ℚ`; the JavaScript source computes over IEEE doubles, and the
only truly irrational quantities it produces (the hypotenuse normalisation
`Math.hypot` of the movement direction and `Math.cos`/`Math.sin` of the aim
angle) enter the per-tick functions below as explicit rational parameters,
so every theorem quantifies over them.
-/

namespace Gam

/-! ## Game constants (source lines 18–52) -/

def TICK_RATE : ℚ := 30

def DT : ℚ := 1 / TICK_RATE

def MAP_W : ℚ := 1200

def MAP_H : ℚ := 800

def PLAYER_RADIUS : ℚ := 16

def PLAYER_MOVE_SPEED : ℚ := 220

def BULLET_SPEED : ℚ := 700

def BULLET_RADIUS : ℚ := 4

def FIRE_COOLDOWN : ℚ := 15 / 100

def RESPAWN_TIME : ℚ := 0

def MAX_HP : ℚ := 100

def HP_REGEN_PER_SEC : ℚ := 2 / 10

def MAX_ERASE : ℚ := 100

def ERASE_REGEN_PER_SEC : ℚ := 1

def ERASE_RADIUS : ℚ := 60

def ERASE_COST_PER_TILE : ℚ := 1

def PAINT_DAMAGE_PER_SEC : ℚ := 2

def HIT_DAMAGE : ℚ := 5

def TILE : ℚ := 20

/-- `GRID_W = Math.ceil(MAP_W / TILE)` (source line 42); 1200/20 = 60. -/
def GRID_W : ℕ := 60

/-- `GRID_H = Math.ceil(MAP_H / TILE)` (source line 43); 800/20 = 40. -/
def GRID_H : ℕ := 40

/-- The static wall rectangles `[x, y, w, h]` (source lines 46–52), with the
`MAP_W`/`MAP_H` arithmetic evaluated: `MAP_W*0.5-40 = 560`, etc. -/
def WALLS : List (ℚ × ℚ × ℚ × ℚ) :=
  [(560, 250, 80, 300),
   (200, 150, 300, 30),
   (700, 600, 300, 30),
   (850, 120, 30, 260),
   (150, 480, 30, 250)]

/-! ## Geometry utilities (source lines 60–92) -/

/-- `clamp(v,a,b) = Math.max(a, Math.min(b, v))` (source line 60). -/
def clamp {α : Type _} [LinearOrder α] (v a b : α) : α := max a (min b v)

/-- Circle-vs-rectangle closest-point overlap test (source lines 62–68). -/
def rectsOverlap (cx cy r rx ry rw rh : ℚ) : Bool :=
  let nx := clamp cx rx (rx + rw)
  let ny := clamp cy ry (ry + rh)
  let dx := cx - nx
  let dy := cy - ny
  dx * dx + dy * dy ≤ r * r

/-- Whether the circle at `(x,y)` with radius `r` overlaps any wall or has its
bounding box outside the arena (source lines 69–74). -/
def collidesWithWalls (x y r : ℚ) : Bool :=
  (WALLS.any fun w => rectsOverlap x y r w.1 w.2.1 w.2.2.1 w.2.2.2) ||
    (x - r < 0 || x + r > MAP_W || y - r < 0 || y + r > MAP_H)

/-! ## Movement resolution (source lines 247–269)

The source resolves a proposed move by axis separation: first the X-only
proposed position is tested against `collidesWithWalls`; if blocked, a
six-iteration binary search between the current coordinate (`lo`) and the
proposed one (`hi`) keeps the last non-colliding point in `lo`; then the same
is done for Y using the already corrected X. -/

/-- The X-axis binary search loop body (source lines 253–258): `n` remaining
iterations, current bracket `[lo, hi]`, returns the final `lo`. -/
def bsearchX (py r : ℚ) : ℕ → ℚ → ℚ → ℚ
  | 0, lo, _ => lo
  | n + 1, lo, hi =>
    let mid := (lo + hi) / 2
    if collidesWithWalls mid py r then bsearchX py r n lo mid
    else bsearchX py r n mid hi

/-- X-axis collision resolution (source lines 250–259). -/
def resolveX (px py nx r : ℚ) : ℚ :=
  if collidesWithWalls nx py r then bsearchX py r 6 px nx else nx

/-- The Y-axis binary search loop body (source lines 263–268). -/
def bsearchY (nx r : ℚ) : ℕ → ℚ → ℚ → ℚ
  | 0, lo, _ => lo
  | n + 1, lo, hi =>
    let mid := (lo + hi) / 2
    if collidesWithWalls nx mid r then bsearchY nx r n lo mid
    else bsearchY nx r n mid hi

/-- Y-axis collision resolution (source lines 261–269). -/
def resolveY (nx py ny r : ℚ) : ℚ :=
  if collidesWithWalls nx ny r then bsearchY nx r 6 py ny else ny

/-! ## Paint grid (source lines 54–57, 88–134)

`paint` is a `GRID_H × GRID_W` array of cell ownership values
(0 = none, 1 = red, 2 = blue), indexed `paint[yy][xx]`. -/

/-- A grid coordinate: `(row, column)` = `(yy, xx)`. -/
abbrev Cell := Fin GRID_H × Fin GRID_W

/-- The paint grid, row index first (`paint[yy][xx]`). -/
def Grid := Fin GRID_H → Fin GRID_W → ℕ

/-- `pointToGrid(x,y)` (source lines 88–92): floor-divide by the tile size and
clamp each axis into the grid; returns `[gx, gy]` (column first). -/
def pointToGrid (x y : ℚ) : ℤ × ℤ :=
  (clamp ⌊x / TILE⌋ 0 ((GRID_W : ℤ) - 1), clamp ⌊y / TILE⌋ 0 ((GRID_H : ℤ) - 1))

/-- The integers from `a` to `b` inclusive, in increasing order. -/
def intRange (a b : ℤ) : List ℤ :=
  (List.range (b + 1 - a).toNat).map fun (i : ℕ) => a + (i : ℤ)

/-- One row of the candidate cells visited by the paint-circle loops: the
in-bounds cells `(yy, xx)` for `xx` in `gx-gr .. gx+gr`, left to right; empty
when the row index is out of range (the `continue` of source lines 101
and 119). -/
def gridRowCells (gx gr yy : ℤ) : List Cell :=
  if hy : 0 ≤ yy ∧ yy < (GRID_H : ℤ) then
    (intRange (gx - gr) (gx + gr)).filterMap fun xx =>
      if hx : 0 ≤ xx ∧ xx < (GRID_W : ℤ) then
        some (⟨yy.toNat, by omega⟩, ⟨xx.toNat, by omega⟩)
      else none
  else []

/-- The in-bounds candidate cells visited by both paint-circle loops
(source lines 100–103 and 118–121): rows `gy-gr .. gy+gr` outer, columns
`gx-gr .. gx+gr` inner (row-major), out-of-range indices skipped. -/
def gridCells (x y r : ℚ) : List Cell :=
  let gp := pointToGrid x y
  let gr := ⌈r / TILE⌉
  (intRange (gp.2 - gr) (gp.2 + gr)).flatMap (gridRowCells gp.1 gr)

/-- Whether the center of tile `c` lies within `r` of `(x,y)` — the inclusive
squared-distance test of source lines 105–107 and 122–124. -/
def inSplat (x y r : ℚ) (c : Cell) : Bool :=
  let cx := (c.2 : ℚ) * TILE + TILE / 2
  let cy := (c.1 : ℚ) * TILE + TILE / 2
  (cx - x) * (cx - x) + (cy - y) * (cy - y) ≤ r * r

/-- Write one grid cell (`paint[yy][xx] = v`). -/
def setCell (g : Grid) (c : Cell) (v : ℕ) : Grid :=
  fun y x => if y = c.1 ∧ x = c.2 then v else g y x

/-- The body of `placePaintCircle`'s loop (source lines 105–109): stamp one
candidate tile if its center is within the radius. -/
def stampStep (x y r : ℚ) (tid : ℕ) (g : Grid) (c : Cell) : Grid :=
  if inSplat x y r c then setCell g c tid else g

/-- `placePaintCircle(x,y,r,tid)` (source lines 97–112): stamp `tid` onto
every in-bounds tile of the bounding box whose center is within `r`. -/
def placePaintCircle (g : Grid) (x y r : ℚ) (tid : ℕ) : Grid :=
  (gridCells x y r).foldl (stampStep x y r tid) g

/-- The body of `erasePaintCircle`'s nested loops (source lines 118–132):
walk the candidate cells in order; each owned in-radius cell is cleared and
counted, returning immediately once the count reaches `maxTiles`. -/
def eraseLoop (x y r : ℚ) (maxTiles : ℕ) : List Cell → Grid → ℕ → Grid × ℕ
  | [], g, er => (g, er)
  | c :: rest, g, er =>
    if inSplat x y r c then
      if g c.1 c.2 ≠ 0 then
        if maxTiles ≤ er + 1 then (setCell g c 0, er + 1)
        else eraseLoop x y r maxTiles rest (setCell g c 0) (er + 1)
      else eraseLoop x y r maxTiles rest g er
    else eraseLoop x y r maxTiles rest g er

/-- `erasePaintCircle(x,y,r,maxTiles)` (source lines 114–134): clears owned
tiles within `r` in row-major bounding-box order, halting at `maxTiles`;
returns the updated grid and the number of tiles actually cleared. -/
def erasePaintCircle (g : Grid) (x y r : ℚ) (maxTiles : ℕ) : Grid × ℕ :=
  eraseLoop x y r maxTiles (gridCells x y r) g 0

/-! ## Entities (source lines 139–180) -/

inductive Team where
  | red
  | blue
deriving DecidableEq

inductive Role where
  | player
  | spectator
deriving DecidableEq

/-- A player's pending-intent record (source line 176). -/
structure Inputs where
  up : Bool
  down : Bool
  left : Bool
  right : Bool
  lmb : Bool
  rmb : Bool
  angle : ℚ
deriving DecidableEq

/-- A connected client's state (source lines 161–180).  `team` is `none`
exactly for spectators. -/
structure Player where
  id : ℕ
  role : Role
  team : Option Team
  x : ℚ
  y : ℚ
  angle : ℚ
  vx : ℚ
  vy : ℚ
  hp : ℚ
  erase : ℚ
  alive : Bool
  inputs : Inputs
  fireCooldown : ℚ
  respawnTimer : ℚ
deriving DecidableEq

/-- An active bullet (source lines 291–298). -/
structure Bullet where
  x : ℚ
  y : ℚ
  vx : ℚ
  vy : ℚ
  team : Option Team
  life : ℚ
deriving DecidableEq

/-- `teamId(team)` (source line 94): `"red" → 1`, anything else `→ 2`. -/
def teamId (t : Option Team) : ℕ := if t = some Team.red then 1 else 2

/-- `enemyTeamId(team)` (source line 95): `"red" → 2`, anything else `→ 1`. -/
def enemyTeamId (t : Option Team) : ℕ := if t = some Team.red then 2 else 1

/-- `spawnPosFor(team)` (source lines 142–146). -/
def spawnPosFor : Option Team → ℚ × ℚ
  | some Team.red => (120, MAP_H - 120)
  | some Team.blue => (MAP_W - 120, 120)
  | none => (MAP_W / 2, MAP_H / 2)

/-- `assignTeam()` (source lines 148–159): red if no current red player,
else blue if no current blue player, else no slot. -/
def assignTeam (ps : List Player) : Option Team :=
  let redTaken := ps.any fun p => p.role = Role.player && p.team = some Team.red
  let blueTaken := ps.any fun p => p.role = Role.player && p.team = some Team.blue
  if !redTaken then some Team.red
  else if !blueTaken then some Team.blue
  else none

/-- `makePlayer(socketId)` (source lines 161–180). -/
def makePlayer (ps : List Player) (id : ℕ) : Player :=
  let team := assignTeam ps
  let role := if team.isSome then Role.player else Role.spectator
  let spawn := spawnPosFor (some (team.getD Team.red))
  { id := id, role := role, team := team, x := spawn.1, y := spawn.2,
    angle := 0, vx := 0, vy := 0, hp := MAX_HP, erase := MAX_ERASE,
    alive := true,
    inputs := ⟨false, false, false, false, false, false, 0⟩,
    fireCooldown := 0, respawnTimer := 0 }

/-- A new connection appends a freshly made player (source lines 185–187;
`Map` iteration follows insertion order). -/
def connect (ps : List Player) (id : ℕ) : List Player := ps ++ [makePlayer ps id]

/-- A disconnection deletes that player's entry (source lines 200–203). -/
def disconnect (ps : List Player) (id : ℕ) : List Player :=
  ps.filter fun p => p.id ≠ id

/-- The paint-grid lookup `paint[gy][gx]` at a continuous position
(source lines 280–281); `pointToGrid` clamps both indices into the grid. -/
def gridAt (g : Grid) (x y : ℚ) : ℕ :=
  g ⟨(pointToGrid x y).2.toNat, by
      have hc : (0:ℤ) < (GRID_H : ℤ) := by norm_num [GRID_H]
      have h : (pointToGrid x y).2 ≤ (GRID_H : ℤ) - 1 := by
        simp only [pointToGrid, clamp]
        exact max_le (by omega) (min_le_left _ _)
      omega⟩
    ⟨(pointToGrid x y).1.toNat, by
      have hc : (0:ℤ) < (GRID_W : ℤ) := by norm_num [GRID_W]
      have h : (pointToGrid x y).1 ≤ (GRID_W : ℤ) - 1 := by
        simp only [pointToGrid, clamp]
        exact max_le (by omega) (min_le_left _ _)
      omega⟩

/-! ## Player controller (source lines 221–317) -/

/-- The raw movement direction `(mx, my)` from the intent flags
(source lines 237–241). -/
def moveInput (i : Inputs) : ℚ × ℚ :=
  ((if i.left then -1 else 0) + (if i.right then 1 else 0),
   (if i.up then -1 else 0) + (if i.down then 1 else 0))

/-- The firing step (source lines 287–289): decrement the cooldown, floored
at 0; fire exactly when the fire intent is held and the decremented cooldown
is ≤ 0, in which case the cooldown resets to `FIRE_COOLDOWN`.  Returns the
new cooldown and whether a bullet is spawned. -/
def fireStep (cd : ℚ) (lmb : Bool) : ℚ × Bool :=
  let cd1 := max 0 (cd - DT)
  if lmb ∧ cd1 ≤ 0 then (FIRE_COOLDOWN, true) else (cd1, false)

/-- The bullet pushed on a successful shot (source lines 291–298);
`(dirx, diry)` stands for `(cos angle, sin angle)`. -/
def spawnBullet (x y dirx diry : ℚ) (team : Option Team) : Bullet :=
  { x := x + dirx * (PLAYER_RADIUS + 8), y := y + diry * (PLAYER_RADIUS + 8),
    vx := dirx * BULLET_SPEED, vy := diry * BULLET_SPEED,
    team := team, life := 12 / 10 }

/-- The erase step (source lines 302–310): with the erase intent held and a
positive resource, erase up to `⌊erase / ERASE_COST_PER_TILE⌋` tiles around
the aim point 140 ahead along `(dirx, diry)`, then pay for the tiles
actually removed (clamped into `[0, MAX_ERASE]`). -/
def eraseStep (g : Grid) (eraseRes x y dirx diry : ℚ) (rmb : Bool) : Grid × ℚ :=
  if rmb ∧ eraseRes > 0 then
    let aimX := x + dirx * 140
    let aimY := y + diry * 140
    let budgetTiles := (⌊eraseRes / ERASE_COST_PER_TILE⌋).toNat
    if budgetTiles > 0 then
      let res := erasePaintCircle g aimX aimY ERASE_RADIUS budgetTiles
      (res.1, clamp (eraseRes - (res.2 : ℚ) * ERASE_COST_PER_TILE) 0 MAX_ERASE)
    else (g, eraseRes)
  else (g, eraseRes)

/-- The alive-player part of one player's slice of `gameTick` (source lines
235–316): movement, aiming, regeneration, paint damage, firing, erasing and
the death check.  `mag` stands for `Math.hypot(mx, my) || 1` and
`(dirx, diry)` for `(Math.cos(p.angle'), Math.sin(p.angle'))` where `angle'`
is the freshly applied aim intent; both are irrational in general and
therefore enter as parameters. -/
def alivePlayerTick (g : Grid) (p : Player) (mag dirx diry : ℚ) :
    Player × Option Bullet × Grid :=
  let m := moveInput p.inputs
    let nx0 := p.x + m.1 / mag * PLAYER_MOVE_SPEED * DT
    let ny0 := p.y + m.2 / mag * PLAYER_MOVE_SPEED * DT
    let nx := resolveX p.x p.y nx0 PLAYER_RADIUS
    let ny := resolveY nx p.y ny0 PLAYER_RADIUS
    let hp1 := clamp (p.hp + HP_REGEN_PER_SEC * DT) 0 MAX_HP
    let er1 := clamp (p.erase + ERASE_REGEN_PER_SEC * DT) 0 MAX_ERASE
    let hp2 := if gridAt g nx ny = enemyTeamId p.team then
        clamp (hp1 - PAINT_DAMAGE_PER_SEC * DT) 0 MAX_HP
      else hp1
    let fr := fireStep p.fireCooldown p.inputs.lmb
    let bullet := if fr.2 then some (spawnBullet nx ny dirx diry p.team) else none
    let es := eraseStep g er1 nx ny dirx diry p.inputs.rmb
    let dead := hp2 ≤ 0
    ({ p with x := nx, y := ny, angle := p.inputs.angle,
              hp := hp2, erase := es.2, fireCooldown := fr.1,
              alive := if dead then false else p.alive,
              respawnTimer := if dead then RESPAWN_TIME else p.respawnTimer },
     bullet, es.1)

/-- One player's slice of `gameTick` (source lines 221–317): skip
non-players, run the respawn branch for dead players, and otherwise run the
full alive-player update `alivePlayerTick`. -/
def playerTick (g : Grid) (p : Player) (mag dirx diry : ℚ) :
    Player × Option Bullet × Grid :=
  if p.role ≠ Role.player then (p, none, g)
  else if p.alive = false then
    let rt := p.respawnTimer - DT
    if rt ≤ 0 then
      let s := spawnPosFor p.team
      ({ p with x := s.1, y := s.2, vx := 0, vy := 0, hp := MAX_HP,
                alive := true, respawnTimer := rt }, none, g)
    else ({ p with respawnTimer := rt }, none, g)
  else alivePlayerTick g p mag dirx diry

/-! ## Projectile system (source lines 320–354) -/

/-- Why a bullet terminated. -/
inductive Cause where
  | timeout
  | wall
  | hit
deriving DecidableEq

/-- A paint stamp emitted by a bullet termination: position, radius, team id. -/
structure Splat where
  x : ℚ
  y : ℚ
  r : ℚ
  tid : ℕ
deriving DecidableEq

/-- One sub-step of bullet integration (source lines 331–332). -/
def advanceBullet (b : Bullet) : Bullet :=
  { b with x := b.x + b.vx * DT / 3, y := b.y + b.vy * DT / 3 }

/-- The player-hit test of source lines 342–344: a living player-role entry
on a different team within `PLAYER_RADIUS + BULLET_RADIUS` of the bullet. -/
def bulletHits (b : Bullet) (p : Player) : Bool :=
  p.role = Role.player && p.alive && p.team ≠ b.team &&
    ((p.x - b.x) * (p.x - b.x) + (p.y - b.y) * (p.y - b.y) ≤
      (PLAYER_RADIUS + BULLET_RADIUS) * (PLAYER_RADIUS + BULLET_RADIUS))

/-- The index of the first player the bullet hits, scanning in order
(source line 341). -/
def hitScan (b : Bullet) : List Player → Option ℕ
  | [] => none
  | p :: rest => if bulletHits b p then some 0 else (hitScan b rest).map (· + 1)

/-- The hit damage of source line 345: `hp = clamp(hp - HIT_DAMAGE, 0, MAX_HP)`. -/
def applyHit (p : Player) : Player :=
  { p with hp := clamp (p.hp - HIT_DAMAGE) 0 MAX_HP }

/-- Apply the hit damage to the player at position `i` of the list. -/
def damageAt : List Player → ℕ → List Player
  | [], _ => []
  | p :: rest, 0 => applyHit p :: rest
  | p :: rest, n + 1 => p :: damageAt rest n

/-- The sub-step loop of one bullet's tick (source lines 329–353), with `n`
sub-steps remaining.  Returns the surviving bullet (if any), the splat events
emitted (cause plus stamp), and the updated player list. -/
def subStepRun (ps : List Player) : ℕ → Bullet →
    Option Bullet × List (Cause × Splat) × List Player
  | 0, b => (some b, [], ps)
  | n + 1, b =>
    let b' := advanceBullet b
    if collidesWithWalls b'.x b'.y BULLET_RADIUS then
      (none, [(Cause.wall, ⟨b'.x, b'.y, 20, teamId b'.team⟩)], ps)
    else
      match hitScan b' ps with
      | some i =>
        (none, [(Cause.hit, ⟨b'.x, b'.y, 16, teamId b'.team⟩)], damageAt ps i)
      | none => subStepRun ps n b'

/-- One bullet's slice of `gameTick` (source lines 320–354): decrement life;
a bullet at ≤ 0 life stamps the timeout splat at its current position and is
removed before any movement; otherwise it advances in three sub-steps,
terminating on the first wall collision or player hit. -/
def processBullet (ps : List Player) (b : Bullet) :
    Option Bullet × List (Cause × Splat) × List Player :=
  let b1 := { b with life := b.life - DT }
  if b1.life ≤ 0 then
    (none, [(Cause.timeout, ⟨b1.x, b1.y, 18, teamId b1.team⟩)], ps)
  else subStepRun ps 3 b1

/-! ## Firing over several ticks (for the end-to-end cooldown scenario) -/

/-- The number of bullets produced by feeding the fire-intent flags of
consecutive ticks through `fireStep`, starting from cooldown `cd`. -/
def countShots : ℚ → List Bool → ℕ
  | _, [] => 0
  | cd, lmb :: rest =>
    let fr := fireStep cd lmb
    (if fr.2 then 1 else 0) + countShots fr.1 rest

/-- The intent pattern "fire at tick 0, again at tick `k`". -/
def firePattern (k : ℕ) : List Bool :=
  true :: (List.replicate (k - 1) false ++ [true])

/-- The candidate cells that `erasePaintCircle` actually clears when not
stopped by the budget: owned (non-zero) cells of the bounding box whose
center is within the radius, in visiting order. -/
def erasables (g : Grid) (x y r : ℚ) : List Cell :=
  (gridCells x y r).filter fun c => inSplat x y r c && decide (g c.1 c.2 ≠ 0)

/-- A concrete full-hp red player standing still (no movement intent) used to
exercise the paint-damage arithmetic at the hp cap. -/
def fullHpRed : Player :=
  { id := 1, role := Role.player, team := some Team.red, x := 120, y := 680,
    angle := 0, vx := 0, vy := 0, hp := 100, erase := 50, alive := true,
    inputs := ⟨false, false, false, false, false, false, 0⟩,
    fireCooldown := 3, respawnTimer := 0 }

/-- The everywhere-blue paint grid. -/
def allBlue : Grid := fun _ _ => 2

/-! ## Movement-resolution lemmas -/

theorem bsearchX_lo (py r : ℚ) (n : ℕ) (lo hi : ℚ)
    (h : collidesWithWalls lo py r = false) :
    collidesWithWalls (bsearchX py r n lo hi) py r = false := by
  induction n generalizing lo hi with
  | zero => simpa [bsearchX] using h
  | succ n ih =>
    rw [bsearchX]
    split
    · exact ih lo _ h
    · exact ih _ hi (by simp_all)

theorem bsearchY_lo (nx r : ℚ) (n : ℕ) (lo hi : ℚ)
    (h : collidesWithWalls nx lo r = false) :
    collidesWithWalls nx (bsearchY nx r n lo hi) r = false := by
  induction n generalizing lo hi with
  | zero => simpa [bsearchY] using h
  | succ n ih =>
    rw [bsearchY]
    split
    · exact ih lo _ h
    · exact ih _ hi (by simp_all)

theorem resolveX_safe (px py nx r : ℚ)
    (h : collidesWithWalls px py r = false) :
    collidesWithWalls (resolveX px py nx r) py r = false := by
  rw [resolveX]
  split
  · exact bsearchX_lo py r 6 px nx h
  · simp_all

theorem resolveY_safe (nx py ny r : ℚ)
    (h : collidesWithWalls nx py r = false) :
    collidesWithWalls nx (resolveY nx py ny r) r = false := by
  rw [resolveY]
  split
  · exact bsearchY_lo nx r 6 py ny h
  · simp_all

/-! ## General helper lemmas -/

theorem clamp_mem {α : Type _} [LinearOrder α] (v a b : α) (hab : a ≤ b) :
    a ≤ clamp v a b ∧ clamp v a b ≤ b :=
  ⟨le_max_left _ _, max_le hab (min_le_left _ _)⟩

/-! ## Branch and projection lemmas for `playerTick` -/

theorem playerTick_alive_eq (g : Grid) (p : Player) (mag dirx diry : ℚ)
    (hrole : p.role = Role.player) (halive : p.alive = true) :
    playerTick g p mag dirx diry = alivePlayerTick g p mag dirx diry := by
  rw [playerTick, if_neg (by simp [hrole]), if_neg (by simp [halive])]

theorem alivePlayerTick_x (g : Grid) (p : Player) (mag dirx diry : ℚ) :
    (alivePlayerTick g p mag dirx diry).1.x =
      resolveX p.x p.y
        (p.x + (moveInput p.inputs).1 / mag * PLAYER_MOVE_SPEED * DT)
        PLAYER_RADIUS := rfl

theorem alivePlayerTick_y (g : Grid) (p : Player) (mag dirx diry : ℚ) :
    (alivePlayerTick g p mag dirx diry).1.y =
      resolveY
        (resolveX p.x p.y
          (p.x + (moveInput p.inputs).1 / mag * PLAYER_MOVE_SPEED * DT)
          PLAYER_RADIUS)
        p.y (p.y + (moveInput p.inputs).2 / mag * PLAYER_MOVE_SPEED * DT)
        PLAYER_RADIUS := rfl

theorem alivePlayerTick_bullet (g : Grid) (p : Player) (mag dirx diry : ℚ) :
    (alivePlayerTick g p mag dirx diry).2.1 =
      if (fireStep p.fireCooldown p.inputs.lmb).2 then
        some (spawnBullet (alivePlayerTick g p mag dirx diry).1.x
          (alivePlayerTick g p mag dirx diry).1.y dirx diry p.team)
      else none := rfl

/-! ## C1 — movement resolution never embeds the player -/

/-- C1: for every player whose pre-movement position does not collide at the
player radius, every combination of the four directional intent flags and
every value of the direction normaliser `mag` (standing for
`Math.hypot(mx,my) || 1`), the position produced by `playerTick`'s
axis-separated movement resolution (X first, then Y, each with a 6-iteration
binary search toward the last non-colliding point) again fails
`collidesWithWalls` at the player radius, against every wall and the arena
boundary alike. -/
theorem playerTick_no_embed (g : Grid) (p : Player) (mag dirx diry : ℚ)
    (hrole : p.role = Role.player) (halive : p.alive = true)
    (h : collidesWithWalls p.x p.y PLAYER_RADIUS = false) :
    collidesWithWalls (playerTick g p mag dirx diry).1.x
      (playerTick g p mag dirx diry).1.y PLAYER_RADIUS = false := by
  rw [playerTick_alive_eq g p mag dirx diry hrole halive,
    alivePlayerTick_x, alivePlayerTick_y]
  exact resolveY_safe _ _ _ _ (resolveX_safe _ _ _ _ h)

theorem playerTick_no_embed_witness :
    collidesWithWalls 120 680 PLAYER_RADIUS = false ∧
    collidesWithWalls
      (playerTick (fun _ _ => 0)
        { id := 1, role := Role.player, team := some Team.red, x := 120, y := 680,
          angle := 0, vx := 0, vy := 0, hp := 100, erase := 100, alive := true,
          inputs := ⟨true, false, false, true, true, true, 0⟩,
          fireCooldown := 0, respawnTimer := 0 } 1 1 0).1.x
      (playerTick (fun _ _ => 0)
        { id := 1, role := Role.player, team := some Team.red, x := 120, y := 680,
          angle := 0, vx := 0, vy := 0, hp := 100, erase := 100, alive := true,
          inputs := ⟨true, false, false, true, true, true, 0⟩,
          fireCooldown := 0, respawnTimer := 0 } 1 1 0).1.y PLAYER_RADIUS = false := by
  refine ⟨?_, playerTick_no_embed _ _ _ _ _ rfl rfl ?_⟩ <;>
    norm_num [collidesWithWalls, WALLS, rectsOverlap, clamp, PLAYER_RADIUS,
      MAP_W, MAP_H]

/-! ## C8 — fire cooldown -/

theorem max0_sub (a d : ℚ) (hd : 0 ≤ d) : max 0 (max 0 a - d) = max 0 (a - d) := by
  rcases le_total a 0 with h | h
  · rw [max_eq_left h, max_eq_left (by linarith), max_eq_left (by linarith)]
  · rw [max_eq_right h]

theorem fireStep_false (cd : ℚ) : fireStep cd false = (max 0 (cd - DT), false) := by
  simp [fireStep]

theorem countShots_replicate (n : ℕ) (cd : ℚ) (rest : List Bool) (hcd : 0 ≤ cd) :
    countShots cd (List.replicate n false ++ rest) =
      countShots (max 0 (cd - n * DT)) rest := by
  induction n generalizing cd with
  | zero => simp [max_eq_right hcd]
  | succ n ih =>
    have hDT : (0:ℚ) ≤ DT := by norm_num [DT, TICK_RATE]
    rw [List.replicate_succ, List.cons_append, countShots]
    rw [fireStep_false]
    simp only [ite_false]
    rw [ih _ (le_max_left _ _)]
    rw [max0_sub _ _ (by positivity)]
    norm_num
    ring_nf

theorem fireStep_fires (cd : ℚ) : (fireStep cd true).2 = true ↔ cd ≤ DT := by
  have hDT : (0:ℚ) < DT := by norm_num [DT, TICK_RATE]
  simp only [fireStep]
  split_ifs with h
  · exact iff_of_true rfl (by
      have h2 := (le_max_right 0 (cd - DT)).trans h.2
      linarith)
  · exact iff_of_false (by simp)
      (fun hle => h ⟨by trivial, max_le le_rfl (by linarith)⟩)

theorem countShots_firePattern (k : ℕ) (hk : 1 ≤ k) :
    countShots 0 (firePattern k) =
      if FIRE_COOLDOWN ≤ (k : ℚ) * DT then 2 else 1 := by
  have hDT : (0:ℚ) < DT := by norm_num [DT, TICK_RATE]
  have hF : (0:ℚ) ≤ FIRE_COOLDOWN := by norm_num [FIRE_COOLDOWN]
  have h0 : fireStep 0 true = (FIRE_COOLDOWN, true) := by
    simp only [fireStep]
    rw [if_pos ⟨by trivial, max_le le_rfl (by linarith)⟩]
  rw [firePattern, countShots, h0]
  simp only [ite_true]
  rw [countShots_replicate (k - 1) FIRE_COOLDOWN [true] hF]
  rw [countShots, countShots]
  have hcast : ((k - 1 : ℕ) : ℚ) = (k : ℚ) - 1 := by
    push_cast [hk]
    ring
  by_cases hfire : max 0 (FIRE_COOLDOWN - (k - 1 : ℕ) * DT) ≤ DT
  · have hstep : (fireStep (max 0 (FIRE_COOLDOWN - (k - 1 : ℕ) * DT)) true).2 = true :=
      (fireStep_fires _).mpr hfire
    have hk' : FIRE_COOLDOWN ≤ (k : ℚ) * DT := by
      have h2 := (max_le_iff.mp hfire).2
      rw [hcast] at h2
      nlinarith
    rw [if_pos hstep, if_pos hk']
  · have hne : ¬ (fireStep (max 0 (FIRE_COOLDOWN - (k - 1 : ℕ) * DT)) true).2 = true := by
      rw [fireStep_fires]
      exact hfire
    have hk' : ¬ FIRE_COOLDOWN ≤ (k : ℚ) * DT := by
      intro hle
      apply hfire
      apply max_le hDT.le
      rw [hcast]
      nlinarith
    rw [if_neg hne, if_neg hk']

/-- C8: the per-tick fire resolution decrements the cooldown by the tick
duration floored at 0, permits a shot only when the decremented cooldown is
≤ 0 (resetting it to the fire period), and an alive player's tick emits a
bullet exactly when `fireStep` fires; consequently two fire attempts less
than the cooldown period apart produce exactly one bullet, while a second
attempt once the cooldown period has elapsed produces two. -/
theorem fire_cooldown_spec :
    (∀ (cd : ℚ) (lmb : Bool),
        (fireStep cd lmb).1 = (if (fireStep cd lmb).2 then FIRE_COOLDOWN else max 0 (cd - DT)) ∧
        ((fireStep cd lmb).2 = true ↔ lmb = true ∧ max 0 (cd - DT) ≤ 0)) ∧
    (∀ (g : Grid) (p : Player) (mag dirx diry : ℚ),
        p.role = Role.player → p.alive = true →
        ((playerTick g p mag dirx diry).2.1).isSome =
          (fireStep p.fireCooldown p.inputs.lmb).2) ∧
    (∀ k : ℕ, 1 ≤ k → (k : ℚ) * DT < FIRE_COOLDOWN →
        countShots 0 (firePattern k) = 1) ∧
    (∀ k : ℕ, 1 ≤ k → FIRE_COOLDOWN ≤ (k : ℚ) * DT →
        countShots 0 (firePattern k) = 2) := by
  refine ⟨?_, ?_, ?_, ?_⟩
  · intro cd lmb
    constructor
    · simp only [fireStep]
      split_ifs with h h' <;> simp_all
    · simp only [fireStep]
      split_ifs with h
      · simpa using h
      · simpa using h
  · intro g p mag dirx diry hrole halive
    rw [playerTick_alive_eq g p mag dirx diry hrole halive, alivePlayerTick_bullet]
    by_cases hf : (fireStep p.fireCooldown p.inputs.lmb).2 = true <;> simp [hf]
  · intro k hk hlt
    rw [countShots_firePattern k hk, if_neg (not_le.mpr hlt)]
  · intro k hk hle
    rw [countShots_firePattern k hk, if_pos hle]

theorem fire_cooldown_spec_witness :
    countShots 0 (firePattern 4) = 1 ∧ countShots 0 (firePattern 5) = 2 :=
  ⟨fire_cooldown_spec.2.2.1 4 (by norm_num)
      (by norm_num [DT, TICK_RATE, FIRE_COOLDOWN]),
   fire_cooldown_spec.2.2.2 5 (by norm_num)
      (by norm_num [DT, TICK_RATE, FIRE_COOLDOWN])⟩

/-! ## C6 — hp and erase-resource stay within their ranges -/

theorem eraseStep_snd_mem (g : Grid) (er x y dx dy : ℚ) (rmb : Bool)
    (h0 : 0 ≤ er) (h1 : er ≤ MAX_ERASE) :
    0 ≤ (eraseStep g er x y dx dy rmb).2 ∧
      (eraseStep g er x y dx dy rmb).2 ≤ MAX_ERASE := by
  rw [eraseStep]
  by_cases h : rmb = true ∧ er > 0
  · rw [if_pos h]
    dsimp only
    split_ifs
    · exact ⟨le_max_left _ _, max_le (by norm_num [MAX_ERASE]) (min_le_left _ _)⟩
    · exact ⟨h0, h1⟩
  · rw [if_neg h]
    exact ⟨h0, h1⟩

theorem alivePlayerTick_hp (g : Grid) (p : Player) (mag dirx diry : ℚ) :
    (alivePlayerTick g p mag dirx diry).1.hp =
      (if gridAt g (alivePlayerTick g p mag dirx diry).1.x
            (alivePlayerTick g p mag dirx diry).1.y = enemyTeamId p.team then
        clamp (clamp (p.hp + HP_REGEN_PER_SEC * DT) 0 MAX_HP
          - PAINT_DAMAGE_PER_SEC * DT) 0 MAX_HP
      else clamp (p.hp + HP_REGEN_PER_SEC * DT) 0 MAX_HP) := rfl

theorem alivePlayerTick_hp_mem (g : Grid) (p : Player) (mag dirx diry : ℚ) :
    0 ≤ (alivePlayerTick g p mag dirx diry).1.hp ∧
      (alivePlayerTick g p mag dirx diry).1.hp ≤ MAX_HP := by
  have hM : (0:ℚ) ≤ MAX_HP := by norm_num [MAX_HP]
  rw [alivePlayerTick_hp]
  split_ifs <;> exact clamp_mem _ _ _ hM

theorem alivePlayerTick_erase_mem (g : Grid) (p : Player) (mag dirx diry : ℚ) :
    0 ≤ (alivePlayerTick g p mag dirx diry).1.erase ∧
      (alivePlayerTick g p mag dirx diry).1.erase ≤ MAX_ERASE := by
  have hE : (0:ℚ) ≤ MAX_ERASE := by norm_num [MAX_ERASE]
  exact eraseStep_snd_mem _ _ _ _ _ _ _ (le_max_left _ _)
    (max_le hE (min_le_left _ _))

theorem applyHit_hp_mem (p : Player) :
    0 ≤ (applyHit p).hp ∧ (applyHit p).hp ≤ MAX_HP :=
  clamp_mem _ _ _ (by norm_num [MAX_HP])

theorem damageAt_mem (ps : List Player) (i : ℕ) (q : Player)
    (hq : q ∈ damageAt ps i) : q ∈ ps ∨ ∃ p' ∈ ps, q = applyHit p' := by
  induction ps generalizing i with
  | nil => simp [damageAt] at hq
  | cons p rest ih =>
    cases i with
    | zero =>
      rcases List.mem_cons.mp hq with h | h
      · exact Or.inr ⟨p, List.mem_cons_self .., h⟩
      · exact Or.inl (List.mem_cons_of_mem _ h)
    | succ n =>
      rcases List.mem_cons.mp hq with h | h
      · exact Or.inl (h ▸ List.mem_cons_self ..)
      · rcases ih n h with h' | ⟨p', hp', hq'⟩
        · exact Or.inl (List.mem_cons_of_mem _ h')
        · exact Or.inr ⟨p', List.mem_cons_of_mem _ hp', hq'⟩

theorem subStepRun_mem (ps : List Player) (n : ℕ) (b : Bullet) (q : Player)
    (hq : q ∈ (subStepRun ps n b).2.2) :
    q ∈ ps ∨ ∃ p' ∈ ps, q = applyHit p' := by
  induction n generalizing b with
  | zero => exact Or.inl (by simpa [subStepRun] using hq)
  | succ n ih =>
    rw [subStepRun] at hq
    split_ifs at hq with hw
    · exact Or.inl hq
    · rcases hsc : hitScan (advanceBullet b) ps with _ | i <;> rw [hsc] at hq
      · exact ih _ hq
      · exact damageAt_mem ps i q hq

theorem processBullet_mem (ps : List Player) (b : Bullet) (q : Player)
    (hq : q ∈ (processBullet ps b).2.2) :
    q ∈ ps ∨ ∃ p' ∈ ps, q = applyHit p' := by
  rw [processBullet] at hq
  split_ifs at hq with h
  · exact Or.inl hq
  · exact subStepRun_mem _ _ _ _ hq

/-- C6: starting from hp and erase-resource inside `[0, max]`, every per-tick
mutation of a player (respawn restore, regeneration, paint damage, erase
spending in `playerTick`; bullet hit damage in `processBullet`) leaves both
values inside `[0, max]` — never negative, never above the cap. -/
theorem hp_erase_in_range (g : Grid) (p : Player) (mag dirx diry : ℚ)
    (ps : List Player) (b : Bullet)
    (hhp0 : 0 ≤ p.hp) (hhp1 : p.hp ≤ MAX_HP)
    (her0 : 0 ≤ p.erase) (her1 : p.erase ≤ MAX_ERASE)
    (hps : ∀ q ∈ ps, 0 ≤ q.hp ∧ q.hp ≤ MAX_HP) :
    (0 ≤ (playerTick g p mag dirx diry).1.hp ∧
      (playerTick g p mag dirx diry).1.hp ≤ MAX_HP) ∧
    (0 ≤ (playerTick g p mag dirx diry).1.erase ∧
      (playerTick g p mag dirx diry).1.erase ≤ MAX_ERASE) ∧
    (∀ q ∈ (processBullet ps b).2.2, 0 ≤ q.hp ∧ q.hp ≤ MAX_HP) := by
  have hM : (0:ℚ) ≤ MAX_HP := by norm_num [MAX_HP]
  have hmain :
      (0 ≤ (playerTick g p mag dirx diry).1.hp ∧
        (playerTick g p mag dirx diry).1.hp ≤ MAX_HP) ∧
      (0 ≤ (playerTick g p mag dirx diry).1.erase ∧
        (playerTick g p mag dirx diry).1.erase ≤ MAX_ERASE) := by
    by_cases h1 : p.role = Role.player
    · by_cases h2 : p.alive = true
      · rw [playerTick_alive_eq g p mag dirx diry h1 h2]
        exact ⟨alivePlayerTick_hp_mem g p mag dirx diry,
          alivePlayerTick_erase_mem g p mag dirx diry⟩
      · have hd : p.alive = false := by simpa using h2
        rw [playerTick, if_neg (by simp [h1]), if_pos hd]
        dsimp only
        split_ifs
        · exact ⟨⟨hM, le_rfl⟩, her0, her1⟩
        · exact ⟨⟨hhp0, hhp1⟩, her0, her1⟩
    · rw [playerTick, if_pos h1]
      exact ⟨⟨hhp0, hhp1⟩, her0, her1⟩
  refine ⟨hmain.1, hmain.2, ?_⟩
  intro q hq
  rcases processBullet_mem ps b q hq with h | ⟨p', hp', rfl⟩
  · exact hps q h
  · exact applyHit_hp_mem p'

theorem hp_erase_in_range_witness :
    0 ≤ (playerTick (fun _ _ => 0)
      { id := 2, role := Role.player, team := some Team.blue, x := 300, y := 300,
        angle := 0, vx := 0, vy := 0, hp := 70, erase := 40, alive := true,
        inputs := ⟨false, false, false, false, false, false, 0⟩,
        fireCooldown := 0, respawnTimer := 0 } 1 1 0).1.hp ∧
    (playerTick (fun _ _ => 0)
      { id := 2, role := Role.player, team := some Team.blue, x := 300, y := 300,
        angle := 0, vx := 0, vy := 0, hp := 70, erase := 40, alive := true,
        inputs := ⟨false, false, false, false, false, false, 0⟩,
        fireCooldown := 0, respawnTimer := 0 } 1 1 0).1.hp ≤ MAX_HP :=
  (hp_erase_in_range _ _ _ _ _ [] ⟨0, 0, 0, 0, none, 1⟩ (by norm_num)
    (by norm_num [MAX_HP]) (by norm_num) (by norm_num [MAX_ERASE]) (by simp)).1

/-! ## Bullet-processing lemmas -/

theorem hitScan_split (b : Bullet) (ps : List Player) (i : ℕ)
    (h : hitScan b ps = some i) :
    ∃ ps1 q ps2, ps = ps1 ++ q :: ps2 ∧ ps1.length = i ∧
      bulletHits b q = true ∧ damageAt ps i = ps1 ++ applyHit q :: ps2 := by
  induction ps generalizing i with
  | nil => simp [hitScan] at h
  | cons p rest ih =>
    rw [hitScan] at h
    split_ifs at h with hb
    · obtain rfl : (0 : ℕ) = i := Option.some.inj h
      exact ⟨[], p, rest, rfl, rfl, hb, by simp [damageAt]⟩
    · rcases ho : hitScan b rest with _ | j <;> rw [ho] at h
      · exact Option.noConfusion h
      · simp only [Option.map_some', Option.some.injEq] at h
        obtain ⟨ps1, q, ps2, hsplit, hlen, hq, hdm⟩ := ih j ho
        subst h
        refine ⟨p :: ps1, q, ps2, by simp [hsplit], by simp [hlen], hq, ?_⟩
        simp only [List.cons_append]
        rw [← hdm]
        rw [damageAt]

theorem subStepRun_cases (ps : List Player) (n : ℕ) (b : Bullet) :
    (∃ b' : Bullet, subStepRun ps n b = (some b', [], ps) ∧ b'.team = b.team) ∨
    (∃ b' : Bullet, b'.team = b.team ∧
      subStepRun ps n b =
        (none, [(Cause.wall, ⟨b'.x, b'.y, 20, teamId b'.team⟩)], ps) ∧
      collidesWithWalls b'.x b'.y BULLET_RADIUS = true) ∨
    (∃ (b' : Bullet) (i : ℕ), b'.team = b.team ∧ hitScan b' ps = some i ∧
      subStepRun ps n b =
        (none, [(Cause.hit, ⟨b'.x, b'.y, 16, teamId b'.team⟩)], damageAt ps i) ∧
      collidesWithWalls b'.x b'.y BULLET_RADIUS = false) := by
  induction n generalizing b with
  | zero => exact Or.inl ⟨b, by rw [subStepRun], rfl⟩
  | succ n ih =>
    have hadv : (advanceBullet b).team = b.team := rfl
    by_cases hw : collidesWithWalls (advanceBullet b).x (advanceBullet b).y
        BULLET_RADIUS = true
    · refine Or.inr (Or.inl ⟨advanceBullet b, hadv, ?_, hw⟩)
      rw [subStepRun]
      try dsimp only
      rw [if_pos hw]
    · have hw' : collidesWithWalls (advanceBullet b).x (advanceBullet b).y
          BULLET_RADIUS = false := by simpa using hw
      have hstep : subStepRun ps (n + 1) b =
          (match hitScan (advanceBullet b) ps with
           | some i =>
              (none,
               [(Cause.hit, ⟨(advanceBullet b).x, (advanceBullet b).y, 16,
                  teamId (advanceBullet b).team⟩)],
               damageAt ps i)
           | none => subStepRun ps n (advanceBullet b)) := by
        rw [subStepRun]
        try dsimp only
        rw [if_neg (by simp [hw'])]
      rcases hsc : hitScan (advanceBullet b) ps with _ | i <;> rw [hsc] at hstep
      · rcases ih (advanceBullet b) with ⟨b', h1, h2⟩ | ⟨b', h1, h2, h3⟩ |
          ⟨b', i, h1, h2, h3, h4⟩
        · exact Or.inl ⟨b', hstep.trans h1, h2.trans hadv⟩
        · exact Or.inr (Or.inl ⟨b', h1.trans hadv, hstep.trans h2, h3⟩)
        · exact Or.inr (Or.inr ⟨b', i, h1.trans hadv, h2, hstep.trans h3, h4⟩)
      · exact Or.inr (Or.inr ⟨advanceBullet b, i, hadv, hsc, hstep, hw'⟩)

theorem processBullet_timeout (ps : List Player) (b : Bullet)
    (hl : b.life - DT ≤ 0) :
    processBullet ps b =
      (none, [(Cause.timeout, ⟨b.x, b.y, 18, teamId b.team⟩)], ps) := by
  rw [processBullet]
  try dsimp only
  rw [if_pos hl]

theorem processBullet_live (ps : List Player) (b : Bullet)
    (hl : ¬ b.life - DT ≤ 0) :
    processBullet ps b = subStepRun ps 3 { b with life := b.life - DT } := by
  rw [processBullet]
  try dsimp only
  rw [if_neg hl]

/-! ## C4 — bullet termination: one cause, one stamp, ordered radii -/

/-- C4: a bullet survives its tick with no stamp and no player change, or
terminates with exactly one paint stamp (never zero, never two) in its own
team's id; the stamp radius is 20 for a wall/boundary collision, 18 for life
expiry and 16 for a player hit — three pairwise distinct radii, hit < timeout
< wall — and a bullet whose decremented life is ≤ 0 is removed with its
timeout stamp at its current position, before any sub-step movement. -/
theorem bullet_termination_spec (ps : List Player) (b : Bullet) :
    ((processBullet ps b).1 = none ↔ (processBullet ps b).2.1.length = 1) ∧
    ((processBullet ps b).1.isSome = true →
      (processBullet ps b).2.1 = [] ∧ (processBullet ps b).2.2 = ps) ∧
    (∀ e ∈ (processBullet ps b).2.1,
      e.2.tid = teamId b.team ∧
      (e.1 = Cause.wall → e.2.r = 20) ∧
      (e.1 = Cause.timeout → e.2.r = 18) ∧
      (e.1 = Cause.hit → e.2.r = 16)) ∧
    ((16:ℚ) < 18 ∧ (18:ℚ) < 20) ∧
    (b.life - DT ≤ 0 →
      processBullet ps b =
        (none, [(Cause.timeout, ⟨b.x, b.y, 18, teamId b.team⟩)], ps)) := by
  refine ⟨?_, ?_, ?_, by norm_num, processBullet_timeout ps b⟩
  all_goals
    by_cases hl : b.life - DT ≤ 0
    · rw [processBullet_timeout ps b hl]
      simp
    · rw [processBullet_live ps b hl]
      rcases subStepRun_cases ps 3 { b with life := b.life - DT } with
        ⟨b', h1, h2⟩ | ⟨b', h1, h2, h3⟩ | ⟨b', i, h1, h2, h3, h4⟩
      · rw [h1]
        simp [h2]
      · rw [h2]
        simp [h1]
      · rw [h3]
        simp [h1]

theorem bullet_termination_spec_witness :
    ((⟨5, 5, 0, 0, some Team.red, 1 / 60⟩ : Bullet).life - DT ≤ 0) ∧
    processBullet [] ⟨5, 5, 0, 0, some Team.red, 1 / 60⟩ =
      (none, [(Cause.timeout, ⟨5, 5, 18, teamId (some Team.red)⟩)], []) :=
  ⟨by norm_num [DT, TICK_RATE],
   (bullet_termination_spec [] ⟨5, 5, 0, 0, some Team.red, 1 / 60⟩).2.2.2.2
     (by norm_num [DT, TICK_RATE])⟩

/-! ## C5 — hit damage restricted to one eligible opposing player -/

/-- C5: during one bullet's processing, either no player is changed at all,
or exactly one player is changed: a living player-role entry on a different
team from the bullet, within `PLAYER_RADIUS + BULLET_RADIUS` of the bullet's
sub-step position, who takes the fixed `HIT_DAMAGE` exactly once (hp clamped
into `[0, MAX_HP]`), after which the bullet is removed having emitted exactly
one hit stamp — so a bullet never damages a same-team, dead or spectator
entry, and damages at most one player. -/
theorem bullet_hit_spec (ps : List Player) (b : Bullet) :
    (processBullet ps b).2.2 = ps ∨
    ∃ ps1 q ps2 b',
      ps = ps1 ++ q :: ps2 ∧
      (processBullet ps b).2.2 = ps1 ++ applyHit q :: ps2 ∧
      b'.team = b.team ∧
      bulletHits b' q = true ∧
      q.role = Role.player ∧ q.alive = true ∧ q.team ≠ b.team ∧
      (q.x - b'.x) * (q.x - b'.x) + (q.y - b'.y) * (q.y - b'.y) ≤
        (PLAYER_RADIUS + BULLET_RADIUS) * (PLAYER_RADIUS + BULLET_RADIUS) ∧
      (applyHit q).hp = clamp (q.hp - HIT_DAMAGE) 0 MAX_HP ∧
      (processBullet ps b).1 = none ∧
      (processBullet ps b).2.1 =
        [(Cause.hit, ⟨b'.x, b'.y, 16, teamId b'.team⟩)] := by
  by_cases hl : b.life - DT ≤ 0
  · rw [processBullet_timeout ps b hl]
    exact Or.inl rfl
  · rw [processBullet_live ps b hl]
    rcases subStepRun_cases ps 3 { b with life := b.life - DT } with
      ⟨b', h1, h2⟩ | ⟨b', h1, h2, h3⟩ | ⟨b', i, h1, h2, h3, h4⟩
    · rw [h1]
      exact Or.inl rfl
    · rw [h2]
      exact Or.inl rfl
    · obtain ⟨ps1, q, ps2, hsplit, hlen, hq, hdm⟩ := hitScan_split b' ps i h2
      have hparts := hq
      rw [bulletHits] at hparts
      simp only [Bool.and_eq_true, decide_eq_true_eq] at hparts
      obtain ⟨⟨⟨hrole, halive⟩, hteam⟩, hdist⟩ := hparts
      rw [h3, hdm]
      refine Or.inr ⟨ps1, q, ps2, b', hsplit, rfl, h1, hq, hrole, halive, ?_, hdist, rfl, rfl, rfl⟩
      rw [← h1]
      exact hteam


/-! ## Candidate-cell list lemmas (for C2 and C3) -/

theorem mem_intRange (a b v : ℤ) : v ∈ intRange a b ↔ a ≤ v ∧ v ≤ b := by
  simp only [intRange, List.mem_map, List.mem_range]
  constructor
  · rintro ⟨i, hi, rfl⟩
    omega
  · rintro ⟨h1, h2⟩
    exact ⟨(v - a).toNat, by omega, by omega⟩

theorem nodup_intRange (a b : ℤ) : (intRange a b).Nodup := by
  rw [intRange]
  refine List.Nodup.map ?_ (List.nodup_range ..)
  intro i j h
  have h' : a + (i : ℤ) = a + (j : ℤ) := h
  omega

theorem mem_gridRowCells (gx gr yy : ℤ) (c : Cell) :
    c ∈ gridRowCells gx gr yy ↔
      ((c.1 : ℤ) = yy ∧ gx - gr ≤ (c.2 : ℤ) ∧ (c.2 : ℤ) ≤ gx + gr) := by
  obtain ⟨cy, cx⟩ := c
  have hylt := cy.isLt
  have hxlt := cx.isLt
  rw [gridRowCells]
  split_ifs with hy
  · simp only [List.mem_filterMap, mem_intRange]
    constructor
    · rintro ⟨xx, ⟨hx1, hx2⟩, hxx⟩
      by_cases hx : 0 ≤ xx ∧ xx < (GRID_W : ℤ)
      · rw [dif_pos hx] at hxx
        obtain ⟨e1, e2⟩ := Prod.ext_iff.mp (Option.some.inj hxx)
        have e1' : yy.toNat = cy.val := congrArg Fin.val e1
        have e2' : xx.toNat = cx.val := congrArg Fin.val e2
        refine ⟨by omega, by omega, by omega⟩
      · rw [dif_neg hx] at hxx
        exact absurd hxx (by simp)
    · rintro ⟨h1, h2, h3⟩
      refine ⟨(cx : ℤ), ⟨h2, h3⟩, ?_⟩
      rw [dif_pos ⟨by omega, by omega⟩]
      simp only [Option.some.injEq, Prod.mk.injEq]
      constructor
      · exact Fin.eq_of_val_eq (show yy.toNat = cy.val by omega)
      · exact Fin.eq_of_val_eq (show ((cx : ℤ)).toNat = cx.val by omega)
  · simp only [List.not_mem_nil, false_iff]
    rintro ⟨h1, -, -⟩
    exact hy ⟨by omega, by omega⟩

theorem nodup_gridRowCells (gx gr yy : ℤ) : (gridRowCells gx gr yy).Nodup := by
  rw [gridRowCells]
  split_ifs with hy
  · refine List.Nodup.filterMap ?_ (nodup_intRange ..)
    intro a a' c hc hc'
    rw [Option.mem_def] at hc hc'
    by_cases h1 : 0 ≤ a ∧ a < (GRID_W : ℤ)
    · by_cases h2 : 0 ≤ a' ∧ a' < (GRID_W : ℤ)
      · rw [dif_pos h1] at hc
        rw [dif_pos h2] at hc'
        have e1 : a.toNat = c.2.val :=
          congrArg Fin.val (Prod.ext_iff.mp (Option.some.inj hc)).2
        have e2 : a'.toNat = c.2.val :=
          congrArg Fin.val (Prod.ext_iff.mp (Option.some.inj hc')).2
        omega
      · rw [dif_neg h2] at hc'
        exact absurd hc' (by simp)
    · rw [dif_neg h1] at hc
      exact absurd hc (by simp)
  · exact List.nodup_nil

theorem mem_gridCells (x y r : ℚ) (c : Cell) :
    c ∈ gridCells x y r ↔
      ((pointToGrid x y).2 - ⌈r / TILE⌉ ≤ (c.1 : ℤ) ∧
       (c.1 : ℤ) ≤ (pointToGrid x y).2 + ⌈r / TILE⌉ ∧
       (pointToGrid x y).1 - ⌈r / TILE⌉ ≤ (c.2 : ℤ) ∧
       (c.2 : ℤ) ≤ (pointToGrid x y).1 + ⌈r / TILE⌉) := by
  simp only [gridCells, List.mem_flatMap, mem_intRange, mem_gridRowCells]
  constructor
  · rintro ⟨yy, ⟨h1, h2⟩, rfl, h3, h4⟩
    exact ⟨h1, h2, h3, h4⟩
  · rintro ⟨h1, h2, h3, h4⟩
    exact ⟨(c.1 : ℤ), ⟨h1, h2⟩, rfl, h3, h4⟩

theorem nodup_gridCells (x y r : ℚ) : (gridCells x y r).Nodup := by
  rw [gridCells]
  refine List.nodup_flatMap.mpr ⟨fun yy _ => nodup_gridRowCells .., ?_⟩
  refine (nodup_intRange ..).imp ?_
  intro yy yy' hne c hc hc'
  rw [mem_gridRowCells] at hc hc'
  exact hne (hc.1.symm.trans hc'.1)

/-- One axis of the bounding-box coverage argument: an in-bounds tile index
whose center coordinate is within `r` of `v` lies within `⌈r / TILE⌉` of the
clamped floor tile of `v`. -/
theorem axis_bbox (bound : ℕ) (_hb : 0 < bound) (v r : ℚ) (hr : 0 ≤ r)
    (k : ℕ) (hklt : k < bound)
    (hlo : -r ≤ (k : ℚ) * TILE + TILE / 2 - v)
    (hhi : (k : ℚ) * TILE + TILE / 2 - v ≤ r) :
    clamp ⌊v / TILE⌋ 0 ((bound : ℤ) - 1) - ⌈r / TILE⌉ ≤ (k : ℤ) ∧
    (k : ℤ) ≤ clamp ⌊v / TILE⌋ 0 ((bound : ℤ) - 1) + ⌈r / TILE⌉ := by
  have hf1 : ((⌊v / TILE⌋ : ℤ) : ℚ) ≤ v / TILE := Int.floor_le _
  have hf2 : v / TILE < (⌊v / TILE⌋ : ℤ) + 1 := Int.lt_floor_add_one _
  have hgr1 : r / TILE ≤ ((⌈r / TILE⌉ : ℤ) : ℚ) := Int.le_ceil _
  have hgr0 : (0:ℤ) ≤ ⌈r / TILE⌉ :=
    Int.ceil_nonneg (div_nonneg hr (by norm_num [TILE]))
  have hT20 : TILE = (20:ℚ) := by norm_num [TILE]
  rw [hT20] at hf1 hf2 hgr1 hlo hhi ⊢
  have hA : ((⌊v / 20⌋ : ℤ) : ℚ) < (k : ℚ) + ((⌈r / 20⌉ : ℤ) : ℚ) + 1 := by
    have hv : v ≤ (k : ℚ) * 20 + 10 + r := by linarith
    have hrG : r ≤ 20 * ((⌈r / 20⌉ : ℤ) : ℚ) := by linarith
    have h20 : ((⌊v / 20⌋ : ℤ) : ℚ) * 20 ≤ v := by linarith
    linarith
  have hB : (k : ℚ) < ((⌊v / 20⌋ : ℤ) : ℚ) + ((⌈r / 20⌉ : ℤ) : ℚ) + 1 := by
    have hv : (k : ℚ) * 20 ≤ v + r - 10 := by linarith
    have hrG : r ≤ 20 * ((⌈r / 20⌉ : ℤ) : ℚ) := by linarith
    have h20 : v < ((⌊v / 20⌋ : ℤ) : ℚ) * 20 + 20 := by linarith
    linarith
  have hAz : ⌊v / 20⌋ ≤ (k : ℤ) + ⌈r / 20⌉ := by
    have := Int.lt_add_one_iff.mp (show ⌊v / 20⌋ < (k : ℤ) + ⌈r / 20⌉ + 1 by
      exact_mod_cast hA)
    exact this
  have hBz : (k : ℤ) ≤ ⌊v / 20⌋ + ⌈r / 20⌉ := by
    have := Int.lt_add_one_iff.mp (show (k : ℤ) < ⌊v / 20⌋ + ⌈r / 20⌉ + 1 by
      exact_mod_cast hB)
    exact this
  simp only [clamp]
  constructor
  · have h1 : max 0 (min ((bound : ℤ) - 1) ⌊v / 20⌋) ≤ max 0 ⌊v / 20⌋ :=
      max_le_max le_rfl (min_le_right _ _)
    have h2 : max 0 ⌊v / 20⌋ ≤ (k : ℤ) + ⌈r / 20⌉ :=
      max_le (add_nonneg (Int.natCast_nonneg k) hgr0) hAz
    linarith
  · have h3 : min ((bound : ℤ) - 1) ⌊v / 20⌋ ≤ max 0 (min ((bound : ℤ) - 1) ⌊v / 20⌋) :=
      le_max_right _ _
    have h4 : (k : ℤ) ≤ min ((bound : ℤ) - 1) ⌊v / 20⌋ + ⌈r / 20⌉ := by
      rw [← min_add_add_right]
      refine le_min ?_ hBz
      have hkb : (k : ℤ) ≤ (bound : ℤ) - 1 := by omega
      linarith
    linarith

/-- Bounding-box coverage: every in-bounds cell whose center is within the
(nonnegative) radius of `(x, y)` is among the candidate cells that the
paint-circle loops visit. -/
theorem inSplat_mem_gridCells (x y r : ℚ) (hr : 0 ≤ r) (c : Cell)
    (hs : inSplat x y r c = true) : c ∈ gridCells x y r := by
  rw [mem_gridCells]
  have hs' : ((c.2 : ℚ) * TILE + TILE / 2 - x) * ((c.2 : ℚ) * TILE + TILE / 2 - x) +
      ((c.1 : ℚ) * TILE + TILE / 2 - y) * ((c.1 : ℚ) * TILE + TILE / 2 - y) ≤
        r * r := by
    simpa [inSplat] using hs
  have hu : ((c.2 : ℚ) * TILE + TILE / 2 - x) * ((c.2 : ℚ) * TILE + TILE / 2 - x) ≤
      r * r := by
    nlinarith [mul_self_nonneg ((c.1 : ℚ) * TILE + TILE / 2 - y)]
  have hw : ((c.1 : ℚ) * TILE + TILE / 2 - y) * ((c.1 : ℚ) * TILE + TILE / 2 - y) ≤
      r * r := by
    nlinarith [mul_self_nonneg ((c.2 : ℚ) * TILE + TILE / 2 - x)]
  have hu1 : -r ≤ (c.2 : ℚ) * TILE + TILE / 2 - x := by nlinarith
  have hu2 : (c.2 : ℚ) * TILE + TILE / 2 - x ≤ r := by nlinarith
  have hw1 : -r ≤ (c.1 : ℚ) * TILE + TILE / 2 - y := by nlinarith
  have hw2 : (c.1 : ℚ) * TILE + TILE / 2 - y ≤ r := by nlinarith
  have hH := axis_bbox GRID_H (by norm_num [GRID_H]) y r hr c.1.val c.1.isLt hw1 hw2
  have hW := axis_bbox GRID_W (by norm_num [GRID_W]) x r hr c.2.val c.2.isLt hu1 hu2
  exact ⟨hH.1, hH.2, hW.1, hW.2⟩

/-! ## C3 — circle stamping -/

/-- Effect of the stamping fold on a single cell: a cell receives `tid`
exactly when it is among the visited cells and its center is in the circle;
all other cells are untouched. -/
theorem stampFold_apply (x y r : ℚ) (tid : ℕ) (L : List Cell) (g : Grid)
    (Y : Fin GRID_H) (X : Fin GRID_W) :
    (L.foldl (stampStep x y r tid) g) Y X =
      if (Y, X) ∈ L ∧ inSplat x y r (Y, X) = true then tid else g Y X := by
  induction L generalizing g with
  | nil => simp
  | cons d L ih =>
    rw [List.foldl_cons, ih]
    by_cases hc : (Y, X) ∈ L ∧ inSplat x y r (Y, X) = true
    · rw [if_pos hc, if_pos ⟨List.mem_cons_of_mem _ hc.1, hc.2⟩]
    · rw [if_neg hc]
      by_cases hcd : (Y, X) = d
      · by_cases hs : inSplat x y r (Y, X) = true
        · rw [if_pos ⟨List.mem_cons.mpr (Or.inl hcd), hs⟩]
          rw [stampStep, ← hcd, if_pos hs]
          simp [setCell]
        · rw [if_neg (show ¬((Y, X) ∈ d :: L ∧ inSplat x y r (Y, X) = true) from
            fun h => hs h.2)]
          rw [stampStep, ← hcd, if_neg hs]
      · have hcond : ¬((Y, X) ∈ d :: L ∧ inSplat x y r (Y, X) = true) := by
          rintro ⟨hm, hs⟩
          rcases List.mem_cons.mp hm with h | h
          · exact hcd h
          · exact hc ⟨h, hs⟩
        have hstep : stampStep x y r tid g d Y X = g Y X := by
          rw [stampStep]
          split_ifs
          · rw [setCell]
            exact if_neg (fun h => hcd (Prod.ext h.1 h.2))
          · rfl
        rw [hstep, if_neg hcond]

/-- Pointwise characterisation of `placePaintCircle` for a nonnegative
radius: an in-bounds cell is set to `tid` exactly when its center is within
the radius; all other cells keep their value. -/
theorem placePaintCircle_char (g : Grid) (x y r : ℚ) (tid : ℕ) (hr : 0 ≤ r)
    (Y : Fin GRID_H) (X : Fin GRID_W) :
    placePaintCircle g x y r tid Y X =
      if inSplat x y r (Y, X) = true then tid else g Y X := by
  rw [placePaintCircle, stampFold_apply]
  by_cases hs : inSplat x y r (Y, X) = true
  · rw [if_pos ⟨inSplat_mem_gridCells x y r hr (Y, X) hs, hs⟩, if_pos hs]
  · rw [if_neg (show ¬((Y, X) ∈ gridCells x y r ∧ inSplat x y r (Y, X) = true) from
      fun h => hs h.2), if_neg hs]

/-- C3: `placePaintCircle` sets exactly the in-bounds cells whose tile center
lies within the (inclusive, squared-distance) radius to the given team id,
unconditionally overwriting any prior owner; hence stamping twice with the
same arguments equals stamping once, and re-stamping the same circle with
the opposing team id leaves every in-range cell owned by the new team. -/
theorem placePaintCircle_spec (g : Grid) (x y r : ℚ) (tid : ℕ) (hr : 0 ≤ r) :
    (∀ Y : Fin GRID_H, ∀ X : Fin GRID_W,
      placePaintCircle g x y r tid Y X =
        if inSplat x y r (Y, X) = true then tid else g Y X) ∧
    placePaintCircle (placePaintCircle g x y r tid) x y r tid =
      placePaintCircle g x y r tid ∧
    (∀ (tid' : ℕ) (Y : Fin GRID_H) (X : Fin GRID_W),
      inSplat x y r (Y, X) = true →
      placePaintCircle (placePaintCircle g x y r tid) x y r tid' Y X = tid') := by
  refine ⟨fun Y X => placePaintCircle_char g x y r tid hr Y X, ?_, ?_⟩
  · funext Y X
    rw [placePaintCircle_char _ x y r tid hr Y X,
      placePaintCircle_char g x y r tid hr Y X]
    split_ifs <;> rfl
  · intro tid' Y X hs
    rw [placePaintCircle_char _ x y r tid' hr Y X, if_pos hs]

theorem placePaintCircle_spec_witness :
    (0:ℚ) ≤ 18 ∧
    placePaintCircle (placePaintCircle (fun _ _ => 0) 100 100 18 1) 100 100 18 1 =
      placePaintCircle (fun _ _ => 0) 100 100 18 1 :=
  ⟨by norm_num,
   (placePaintCircle_spec (fun _ _ => 0) 100 100 18 1 (by norm_num)).2.1⟩

/-! ## C2 — budgeted circle erase -/

theorem setCell_apply (g : Grid) (c : Cell) (v : ℕ) (Y : Fin GRID_H)
    (X : Fin GRID_W) :
    setCell g c v Y X = if Y = c.1 ∧ X = c.2 then v else g Y X := rfl

/-- Full characterisation of the erase loop over any duplicate-free candidate
list, starting below the budget: the returned count tops up the running
count with the number of owned in-radius candidates, capped at `maxTiles`,
and exactly the first `maxTiles - er` such candidates are cleared. -/
theorem eraseLoop_spec (x y r : ℚ) (maxTiles : ℕ) (L : List Cell) (g : Grid)
    (er : ℕ) (hnd : L.Nodup) (her : er < maxTiles) :
    (eraseLoop x y r maxTiles L g er).2 =
      min maxTiles
        (er + (L.filter fun d => inSplat x y r d && decide (g d.1 d.2 ≠ 0)).length) ∧
    ∀ (Y : Fin GRID_H) (X : Fin GRID_W),
      (eraseLoop x y r maxTiles L g er).1 Y X =
        if (Y, X) ∈
            (L.filter fun d =>
              inSplat x y r d && decide (g d.1 d.2 ≠ 0)).take (maxTiles - er)
        then 0 else g Y X := by
  induction L generalizing g er with
  | nil =>
    rw [eraseLoop]
    exact ⟨(min_eq_right (by omega)).symm, fun Y X => by simp⟩
  | cons c L ih =>
    rw [eraseLoop]
    by_cases hsp : inSplat x y r c = true
    · by_cases hown : g c.1 c.2 ≠ 0
      · rw [if_pos hsp, if_pos hown,
          List.filter_cons_of_pos (by simp [hsp, hown])]
        by_cases hm : maxTiles ≤ er + 1
        · rw [if_pos hm]
          constructor
          · show er + 1 = min maxTiles
              (er + ((c :: L.filter fun d =>
                inSplat x y r d && decide (g d.1 d.2 ≠ 0)).length))
            simp only [List.length_cons]
            omega
          · intro Y X
            have ht : maxTiles - er = 1 := by omega
            rw [ht, List.take_succ_cons, List.take_zero]
            show setCell g c 0 Y X = if (Y, X) ∈ [c] then 0 else g Y X
            rw [setCell_apply]
            by_cases hYX : (Y, X) = c
            · rw [if_pos ⟨congrArg Prod.fst hYX, congrArg Prod.snd hYX⟩,
                if_pos (List.mem_singleton.mpr hYX)]
            · rw [if_neg (fun h => hYX (Prod.ext h.1 h.2)),
                if_neg (fun h => hYX (List.mem_singleton.mp h))]
        · rw [if_neg hm]
          obtain ⟨ih1, ih2⟩ := ih (setCell g c 0) (er + 1)
            (List.nodup_cons.mp hnd).2 (by omega)
          have hcnotL : c ∉ L := (List.nodup_cons.mp hnd).1
          have hfeq : (L.filter fun d =>
              inSplat x y r d && decide (setCell g c 0 d.1 d.2 ≠ 0)) =
              (L.filter fun d => inSplat x y r d && decide (g d.1 d.2 ≠ 0)) := by
            apply List.filter_congr
            intro d hd
            show (inSplat x y r d && decide (setCell g c 0 d.1 d.2 ≠ 0)) =
              (inSplat x y r d && decide (g d.1 d.2 ≠ 0))
            have hdc : ¬(d.1 = c.1 ∧ d.2 = c.2) :=
              fun h => hcnotL ((Prod.ext h.1 h.2) ▸ hd)
            have hval : setCell g c 0 d.1 d.2 = g d.1 d.2 := if_neg hdc
            rw [hval]
          constructor
          · rw [ih1, hfeq]
            simp only [List.length_cons]
            omega
          · intro Y X
            rw [ih2 Y X, hfeq]
            have htake : maxTiles - er = (maxTiles - (er + 1)) + 1 := by omega
            rw [htake, List.take_succ_cons]
            by_cases hYXc : (Y, X) = c
            · have hnot : (Y, X) ∉
                  (L.filter fun d =>
                    inSplat x y r d && decide (g d.1 d.2 ≠ 0)).take
                      (maxTiles - (er + 1)) := fun hmem =>
                hcnotL (hYXc ▸ List.mem_of_mem_filter (List.take_subset _ _ hmem))
              rw [if_neg hnot, if_pos (List.mem_cons.mpr (Or.inl hYXc)),
                setCell_apply,
                if_pos ⟨congrArg Prod.fst hYXc, congrArg Prod.snd hYXc⟩]
            · have hval : setCell g c 0 Y X = g Y X := by
                rw [setCell_apply]
                exact if_neg (fun h => hYXc (Prod.ext h.1 h.2))
              by_cases hmem : (Y, X) ∈
                  (L.filter fun d =>
                    inSplat x y r d && decide (g d.1 d.2 ≠ 0)).take
                      (maxTiles - (er + 1))
              · rw [if_pos hmem, if_pos (List.mem_cons.mpr (Or.inr hmem))]
              · rw [if_neg hmem, if_neg (fun h => by
                  rcases List.mem_cons.mp h with h' | h'
                  exacts [hYXc h', hmem h']), hval]
      · rw [if_pos hsp, if_neg hown,
          List.filter_cons_of_neg (by simp [hown])]
        exact ih g er (List.nodup_cons.mp hnd).2 her
    · rw [if_neg hsp,
        List.filter_cons_of_neg (by simp [hsp])]
      exact ih g er (List.nodup_cons.mp hnd).2 her

/-- C2: with a budget of at least one tile, `erasePaintCircle` clears at most
`maxTiles` cells; it returns exactly `min maxTiles` (number of owned
in-radius candidates); the cells it clears are precisely the first
`maxTiles` owned cells whose center is within the radius, taken in the
row-major visiting order of the bounding box (so it stops mid-row when the
budget is reached); every changed cell was owned, lies within the radius and
is now cleared; and on a region with no owned in-radius tiles it returns 0
and leaves the grid unchanged. -/
theorem erasePaintCircle_spec (g : Grid) (x y r : ℚ) (maxTiles : ℕ)
    (hmax : 1 ≤ maxTiles) :
    (erasePaintCircle g x y r maxTiles).2 ≤ maxTiles ∧
    (erasePaintCircle g x y r maxTiles).2 =
      min maxTiles (erasables g x y r).length ∧
    (∀ (Y : Fin GRID_H) (X : Fin GRID_W),
      (erasePaintCircle g x y r maxTiles).1 Y X =
        if (Y, X) ∈ (erasables g x y r).take maxTiles then 0 else g Y X) ∧
    (∀ (Y : Fin GRID_H) (X : Fin GRID_W),
      (erasePaintCircle g x y r maxTiles).1 Y X ≠ g Y X →
      g Y X ≠ 0 ∧ inSplat x y r (Y, X) = true ∧
        (erasePaintCircle g x y r maxTiles).1 Y X = 0) ∧
    ((∀ (Y : Fin GRID_H) (X : Fin GRID_W),
        inSplat x y r (Y, X) = true → g Y X = 0) →
      (erasePaintCircle g x y r maxTiles).2 = 0 ∧
      (erasePaintCircle g x y r maxTiles).1 = g) := by
  obtain ⟨h1, h2⟩ := eraseLoop_spec x y r maxTiles (gridCells x y r) g 0
    (nodup_gridCells x y r) (by omega)
  have hcount : (erasePaintCircle g x y r maxTiles).2 =
      min maxTiles (erasables g x y r).length := by
    rw [erasePaintCircle, h1, Nat.zero_add, erasables]
  have hchar : ∀ (Y : Fin GRID_H) (X : Fin GRID_W),
      (erasePaintCircle g x y r maxTiles).1 Y X =
        if (Y, X) ∈ (erasables g x y r).take maxTiles then 0 else g Y X := by
    intro Y X
    have h := h2 Y X
    rw [Nat.sub_zero] at h
    rw [erasePaintCircle, h, erasables]
  refine ⟨?_, hcount, hchar, ?_, ?_⟩
  · rw [hcount]
    exact min_le_left _ _
  · intro Y X hne
    have hYX := hchar Y X
    by_cases hmem : (Y, X) ∈ (erasables g x y r).take maxTiles
    · rw [if_pos hmem] at hYX
      have hinfil : (Y, X) ∈ erasables g x y r := List.take_subset _ _ hmem
      rw [erasables, List.mem_filter] at hinfil
      have hpred := hinfil.2
      simp only [Bool.and_eq_true, decide_eq_true_eq] at hpred
      exact ⟨hpred.2, hpred.1, hYX⟩
    · rw [if_neg hmem] at hYX
      exact absurd hYX hne
  · intro hempty
    have hnil : erasables g x y r = [] := by
      rw [erasables]
      rw [List.filter_eq_nil_iff]
      intro c hc
      simp only [Bool.and_eq_true, decide_eq_true_eq, not_and]
      intro hsp hne
      exact hne (hempty c.1 c.2 hsp)
    constructor
    · rw [hcount, hnil]
      simp
    · funext Y X
      rw [hchar Y X, hnil]
      simp

theorem erasePaintCircle_spec_witness :
    1 ≤ 3 ∧ (erasePaintCircle (fun _ _ => 0) 100 100 60 3).2 = 0 :=
  ⟨by norm_num,
   ((erasePaintCircle_spec (fun _ _ => 0) 100 100 60 3 (by norm_num)).2.2.2.2
     (fun _ _ _ => rfl)).1⟩

/-! ## C7 — paint damage and regeneration -/

theorem bsearchX_fixed (py r : ℚ) (n : ℕ) (lo : ℚ) : bsearchX py r n lo lo = lo := by
  induction n with
  | zero => rw [bsearchX]
  | succ n ih =>
    rw [bsearchX]
    have hmid : (lo + lo) / 2 = lo := by ring
    simp only [hmid]
    split_ifs <;> exact ih

theorem bsearchY_fixed (nx r : ℚ) (n : ℕ) (lo : ℚ) : bsearchY nx r n lo lo = lo := by
  induction n with
  | zero => rw [bsearchY]
  | succ n ih =>
    rw [bsearchY]
    have hmid : (lo + lo) / 2 = lo := by ring
    simp only [hmid]
    split_ifs <;> exact ih

theorem resolveX_id (px py r : ℚ) : resolveX px py px r = px := by
  rw [resolveX]
  split_ifs
  · exact bsearchX_fixed py r 6 px
  · rfl

theorem resolveY_id (nx py r : ℚ) : resolveY nx py py r = py := by
  rw [resolveY]
  split_ifs
  · exact bsearchY_fixed nx r 6 py
  · rfl

/-- With no movement intent, the alive tick leaves the position unchanged
and the hp update is regeneration (clamped to the cap) followed by paint
damage (clamped at 0) read off the player's own tile. -/
theorem stand_still_hp (g : Grid) (p : Player) (mag dirx diry : ℚ)
    (hrole : p.role = Role.player) (halive : p.alive = true)
    (hup : p.inputs.up = false) (hdown : p.inputs.down = false)
    (hleft : p.inputs.left = false) (hright : p.inputs.right = false)
    (henemy : gridAt g p.x p.y = enemyTeamId p.team) :
    (playerTick g p mag dirx diry).1.hp =
      clamp (clamp (p.hp + HP_REGEN_PER_SEC * DT) 0 MAX_HP
        - PAINT_DAMAGE_PER_SEC * DT) 0 MAX_HP := by
  rw [playerTick_alive_eq g p mag dirx diry hrole halive]
  have hx : (alivePlayerTick g p mag dirx diry).1.x = p.x := by
    rw [alivePlayerTick_x]
    simp only [moveInput, hup, hdown, hleft, hright, if_false]
    norm_num
    exact resolveX_id p.x p.y PLAYER_RADIUS
  have hy : (alivePlayerTick g p mag dirx diry).1.y = p.y := by
    rw [alivePlayerTick_y]
    simp only [moveInput, hup, hdown, hleft, hright, if_false]
    norm_num
    rw [resolveX_id p.x p.y PLAYER_RADIUS]
    exact resolveY_id p.x p.y PLAYER_RADIUS
  rw [alivePlayerTick_hp, hx, hy, henemy, if_pos rfl]

/-- C7 (amended): on a tick in which a living, motionless player's tile is
owned by the opposing team, regeneration and paint damage both apply — the
net hp change is `(HP_REGEN_PER_SEC - PAINT_DAMAGE_PER_SEC) * DT` whenever
neither clamp binds (hp at most `MAX_HP - HP_REGEN_PER_SEC * DT` and not
driven below 0); a player at exactly `MAX_HP`, however, loses the full
`PAINT_DAMAGE_PER_SEC * DT` that tick because regeneration clamps at the
cap. -/
theorem paint_damage_net (g : Grid) (p : Player) (mag dirx diry : ℚ)
    (hrole : p.role = Role.player) (halive : p.alive = true)
    (hup : p.inputs.up = false) (hdown : p.inputs.down = false)
    (hleft : p.inputs.left = false) (hright : p.inputs.right = false)
    (henemy : gridAt g p.x p.y = enemyTeamId p.team) :
    (0 ≤ p.hp → p.hp ≤ MAX_HP - HP_REGEN_PER_SEC * DT →
      0 ≤ p.hp + (HP_REGEN_PER_SEC - PAINT_DAMAGE_PER_SEC) * DT →
      (playerTick g p mag dirx diry).1.hp =
        p.hp + (HP_REGEN_PER_SEC - PAINT_DAMAGE_PER_SEC) * DT) ∧
    (p.hp = MAX_HP →
      (playerTick g p mag dirx diry).1.hp = MAX_HP - PAINT_DAMAGE_PER_SEC * DT) := by
  have hDT : (0:ℚ) < DT := by norm_num [DT, TICK_RATE]
  have hP : (0:ℚ) < PAINT_DAMAGE_PER_SEC := by norm_num [PAINT_DAMAGE_PER_SEC]
  have hR : (0:ℚ) < HP_REGEN_PER_SEC := by norm_num [HP_REGEN_PER_SEC]
  have hPM : PAINT_DAMAGE_PER_SEC * DT ≤ MAX_HP := by
    norm_num [PAINT_DAMAGE_PER_SEC, DT, TICK_RATE, MAX_HP]
  have hPD : (0:ℚ) ≤ PAINT_DAMAGE_PER_SEC * DT := by positivity
  have hRD : (0:ℚ) ≤ HP_REGEN_PER_SEC * DT := by positivity
  rw [stand_still_hp g p mag dirx diry hrole halive hup hdown hleft hright henemy]
  constructor
  · intro h0 hcap hfloor
    have h1 : clamp (p.hp + HP_REGEN_PER_SEC * DT) 0 MAX_HP =
        p.hp + HP_REGEN_PER_SEC * DT := by
      rw [clamp, min_eq_right (by linarith), max_eq_right (by positivity)]
    rw [h1, clamp, min_eq_right (by linarith), max_eq_right (by linarith)]
    ring
  · intro hfull
    have h1 : clamp (p.hp + HP_REGEN_PER_SEC * DT) 0 MAX_HP = MAX_HP := by
      rw [clamp, min_eq_left (by nlinarith), max_eq_right (by norm_num [MAX_HP])]
    rw [h1, clamp, min_eq_right (by nlinarith), max_eq_right (by linarith)]

/-- C7 (counterexample to the claim as stated): a full-hp red player standing
on blue paint loses `PAINT_DAMAGE_PER_SEC * DT` that tick, not the claimed
net `(HP_REGEN_PER_SEC - PAINT_DAMAGE_PER_SEC) * DT`, because regeneration
clamps at the hp cap. -/
theorem paint_damage_net_counterexample :
    fullHpRed.hp = 100 ∧
    gridAt allBlue fullHpRed.x fullHpRed.y = enemyTeamId fullHpRed.team ∧
    (playerTick allBlue fullHpRed 1 1 0).1.hp = 100 - PAINT_DAMAGE_PER_SEC * DT ∧
    (playerTick allBlue fullHpRed 1 1 0).1.hp ≠
      100 + (HP_REGEN_PER_SEC - PAINT_DAMAGE_PER_SEC) * DT := by
  have hhp : (playerTick allBlue fullHpRed 1 1 0).1.hp =
      100 - PAINT_DAMAGE_PER_SEC * DT := by
    rw [stand_still_hp allBlue fullHpRed 1 1 0 rfl rfl rfl rfl rfl rfl rfl]
    rw [clamp, clamp]
    norm_num [fullHpRed, MAX_HP, HP_REGEN_PER_SEC, PAINT_DAMAGE_PER_SEC, DT,
      TICK_RATE, min_def, max_def]
  refine ⟨rfl, rfl, hhp, ?_⟩
  rw [hhp]
  norm_num [HP_REGEN_PER_SEC, PAINT_DAMAGE_PER_SEC, DT, TICK_RATE]

theorem paint_damage_net_witness :
    (playerTick allBlue
      { id := 1, role := Role.player, team := some Team.red, x := 120, y := 680,
        angle := 0, vx := 0, vy := 0, hp := 50, erase := 50, alive := true,
        inputs := ⟨false, false, false, false, false, false, 0⟩,
        fireCooldown := 3, respawnTimer := 0 } 1 1 0).1.hp =
      50 + (HP_REGEN_PER_SEC - PAINT_DAMAGE_PER_SEC) * DT :=
  (paint_damage_net allBlue
      { id := 1, role := Role.player, team := some Team.red, x := 120, y := 680,
        angle := 0, vx := 0, vy := 0, hp := 50, erase := 50, alive := true,
        inputs := ⟨false, false, false, false, false, false, 0⟩,
        fireCooldown := 3, respawnTimer := 0 } 1 1 0 rfl rfl rfl rfl rfl rfl rfl).1
    (by norm_num)
    (by norm_num [MAX_HP, HP_REGEN_PER_SEC, DT, TICK_RATE])
    (by norm_num [HP_REGEN_PER_SEC, PAINT_DAMAGE_PER_SEC, DT, TICK_RATE])

/-- C9: a new connection is assigned team red with role player exactly when
no current connection holds team red with role player, else blue likewise,
else it becomes a team-less spectator; concretely, three successive
connections receive red, blue and spectator in arrival order, and after the
red player disconnects the next new connection receives red while the
existing spectator stays a spectator. -/
theorem team_assignment_spec :
    (∀ ps : List Player,
      (assignTeam ps = some Team.red ↔
        ¬ ∃ p ∈ ps, p.role = Role.player ∧ p.team = some Team.red) ∧
      (assignTeam ps = some Team.blue ↔
        (∃ p ∈ ps, p.role = Role.player ∧ p.team = some Team.red) ∧
        ¬ ∃ p ∈ ps, p.role = Role.player ∧ p.team = some Team.blue) ∧
      (assignTeam ps = none ↔
        (∃ p ∈ ps, p.role = Role.player ∧ p.team = some Team.red) ∧
        ∃ p ∈ ps, p.role = Role.player ∧ p.team = some Team.blue)) ∧
    (connect (connect (connect [] 1) 2) 3).map (fun p => (p.id, p.role, p.team)) =
      [(1, Role.player, some Team.red), (2, Role.player, some Team.blue),
       (3, Role.spectator, none)] ∧
    (connect (disconnect (connect (connect (connect [] 1) 2) 3) 1) 4).map
        (fun p => (p.id, p.role, p.team)) =
      [(2, Role.player, some Team.blue), (3, Role.spectator, none),
       (4, Role.player, some Team.red)] := by
  refine ⟨?_, by decide, by decide⟩
  intro ps
  have hred : (ps.any fun p => p.role = Role.player && p.team = some Team.red) = true ↔
      ∃ p ∈ ps, p.role = Role.player ∧ p.team = some Team.red := by simp
  have hblue : (ps.any fun p => p.role = Role.player && p.team = some Team.blue) = true ↔
      ∃ p ∈ ps, p.role = Role.player ∧ p.team = some Team.blue := by simp
  rw [assignTeam]
  split_ifs with h1 h2
  · rw [Bool.not_eq_true'] at h1
    refine ⟨iff_of_true rfl ?_, iff_of_false (by simp) ?_, iff_of_false (by simp) ?_⟩
    · exact fun hx => by simp [hred.mpr hx] at h1
    · rintro ⟨hx, -⟩
      simp [hred.mpr hx] at h1
    · rintro ⟨hx, -⟩
      simp [hred.mpr hx] at h1
  · have hr : (ps.any fun p => p.role = Role.player && p.team = some Team.red) = true := by
      simpa using h1
    rw [Bool.not_eq_true'] at h2
    refine ⟨iff_of_false (by simp) ?_, iff_of_true rfl ⟨hred.mp hr, ?_⟩,
      iff_of_false (by simp) ?_⟩
    · exact fun hn => hn (hred.mp hr)
    · exact fun hx => by simp [hblue.mpr hx] at h2
    · rintro ⟨-, hx⟩
      simp [hblue.mpr hx] at h2
  · have hr : (ps.any fun p => p.role = Role.player && p.team = some Team.red) = true := by
      simpa using h1
    have hb : (ps.any fun p => p.role = Role.player && p.team = some Team.blue) = true := by
      simpa using h2
    refine ⟨iff_of_false (by simp) ?_, iff_of_false (by simp) ?_,
      iff_of_true rfl ⟨hred.mp hr, hblue.mp hb⟩⟩
    · exact fun hn => hn (hred.mp hr)
    · rintro ⟨-, hn⟩
      exact hn (hblue.mp hb)

theorem team_assignment_spec_witness :
    assignTeam [] = some Team.red ∧
    (connect (connect (connect [] 1) 2) 3).map (fun p => (p.id, p.role, p.team)) =
      [(1, Role.player, some Team.red), (2, Role.player, some Team.blue),
       (3, Role.spectator, none)] :=
  ⟨(team_assignment_spec.1 []).1.mpr (by simp), team_assignment_spec.2.1⟩

/-! ## C10 — the respawn step's frame of effect -/

/-- C10: for a dead player, the per-tick respawn branch decrements the
respawn timer, and when the decremented timer is ≤ 0 it changes only the
position (to the team spawn point), the velocity (to zero), hp (to the
maximum) and the alive flag (to true); erase-resource, fire-cooldown, facing
angle, team, role, identity and pending intent are unchanged in either case,
no bullet is fired and the grid is untouched. -/
theorem playerTick_respawn_frame (g : Grid) (p : Player) (mag dirx diry : ℚ)
    (hrole : p.role = Role.player) (hdead : p.alive = false) :
    (playerTick g p mag dirx diry).1.erase = p.erase ∧
    (playerTick g p mag dirx diry).1.fireCooldown = p.fireCooldown ∧
    (playerTick g p mag dirx diry).1.angle = p.angle ∧
    (playerTick g p mag dirx diry).1.team = p.team ∧
    (playerTick g p mag dirx diry).1.role = p.role ∧
    (playerTick g p mag dirx diry).1.inputs = p.inputs ∧
    (playerTick g p mag dirx diry).1.id = p.id ∧
    (playerTick g p mag dirx diry).1.respawnTimer = p.respawnTimer - DT ∧
    (playerTick g p mag dirx diry).2.1 = none ∧
    (playerTick g p mag dirx diry).2.2 = g ∧
    (p.respawnTimer - DT ≤ 0 →
      (playerTick g p mag dirx diry).1.x = (spawnPosFor p.team).1 ∧
      (playerTick g p mag dirx diry).1.y = (spawnPosFor p.team).2 ∧
      (playerTick g p mag dirx diry).1.vx = 0 ∧
      (playerTick g p mag dirx diry).1.vy = 0 ∧
      (playerTick g p mag dirx diry).1.hp = MAX_HP ∧
      (playerTick g p mag dirx diry).1.alive = true) ∧
    (¬ p.respawnTimer - DT ≤ 0 →
      (playerTick g p mag dirx diry).1.x = p.x ∧
      (playerTick g p mag dirx diry).1.y = p.y ∧
      (playerTick g p mag dirx diry).1.hp = p.hp ∧
      (playerTick g p mag dirx diry).1.alive = false) := by
  rw [playerTick]
  simp only [hrole, hdead, ne_eq, not_true_eq_false, if_false, if_true]
  split <;> simp_all

theorem playerTick_respawn_frame_witness :
    (playerTick (fun _ _ => 0)
      { id := 7, role := Role.player, team := some Team.blue, x := 600, y := 400,
        angle := 2, vx := 3, vy := 4, hp := 0, erase := 55, alive := false,
        inputs := ⟨false, true, false, false, true, false, 2⟩,
        fireCooldown := 1 / 10, respawnTimer := 0 } 1 1 0).1.erase = 55 ∧
    (playerTick (fun _ _ => 0)
      { id := 7, role := Role.player, team := some Team.blue, x := 600, y := 400,
        angle := 2, vx := 3, vy := 4, hp := 0, erase := 55, alive := false,
        inputs := ⟨false, true, false, false, true, false, 2⟩,
        fireCooldown := 1 / 10, respawnTimer := 0 } 1 1 0).1.fireCooldown = 1 / 10 :=
  ⟨(playerTick_respawn_frame _ _ 1 1 0 rfl rfl).1,
   (playerTick_respawn_frame _ _ 1 1 0 rfl rfl).2.1⟩

end Gam
